import Mathlib

/-!
Verification of the retrieval/fusion core of the Rag-System repository.

The repository ships the backend retrieval core (Fusion Engine, Keyword
Ranker, Query Enhancer, Retrieval Strategy Selector) only through its
documentation; the files present are the frontend React pages, the API
reference and the architecture documents.  The components below that are
marked `Modelled from the spec:` are therefore shallow embeddings built
from the specification text.  The ingestion page's delete handler
(`handleDelete`) is embedded directly from the frontend source.

Scores are modelled as rationals (`ℚ`), chunk identifiers as strings.
-/

namespace Rag

/-- A chunk identifier paired with the raw relevance score one ranker
assigned to it (the `ScoredResult` shape of the data model). -/
structure ScoredResult where
  chunkId : String
  score : ℚ
  deriving Repr, DecidableEq

/-- Modelled from the spec: the smoothing constant `k` of Reciprocal Rank
Fusion defaults to 60. -/
def rrfDefaultK : ℚ := 60

/-- Modelled from the spec: `rank_L(c)` is the 1-based position of `c` in
list `L` (lists are 0-indexed internally but rank starts at 1). -/
def rankIn (L : List String) (c : String) : ℕ :=
  L.indexOf c + 1

/-- Modelled from the spec: the contribution of one ranked list `L` to the
fused score of chunk `c`: `1 / (k + rank_L(c))` when `c` occurs in `L`,
and 0 when `c` is absent from `L`. -/
def rrfContrib (k : ℚ) (L : List String) (c : String) : ℚ :=
  if c ∈ L then 1 / (k + (rankIn L c : ℚ)) else 0

/-- Modelled from the spec: the fused score of a chunk is the sum of the
reciprocal-rank contributions over all input lists. -/
def fusedScore (k : ℚ) (idLists : List (List String)) (c : String) : ℚ :=
  (idLists.map fun L => rrfContrib k L c).sum

/-- The chunk-id sequences underlying ranked `ScoredResult` lists; RRF
uses only these, never the raw scores. -/
def idsOf (lists : List (List ScoredResult)) : List (List String) :=
  lists.map fun L => L.map ScoredResult.chunkId

/-- Modelled from the spec: output comparator of the Fusion Engine —
descending fused score, ties broken by chunk identifier (lexicographic). -/
def fuseLe (a b : String × ℚ) : Bool :=
  decide (b.2 < a.2) || (decide (a.2 = b.2) && decide (a.1 ≤ b.1))

/-- Modelled from the spec: the Fusion Engine.  It takes the ranked lists
produced by the individual rankers, keeps only the chunk-id order
(discarding raw scores), forms the union of the mentioned chunk ids,
assigns every chunk its reciprocal-rank-fusion score and sorts by
descending fused score with lexicographic tie-break on the id. -/
def fuse (k : ℚ) (lists : List (List ScoredResult)) : List (String × ℚ) :=
  (((idsOf lists).flatten.dedup).map fun c =>
    (c, fusedScore k (idsOf lists) c)).mergeSort fuseLe

theorem fuseLe_trans (a b c : String × ℚ) (hab : fuseLe a b = true)
    (hbc : fuseLe b c = true) : fuseLe a c = true := by
  simp only [fuseLe, Bool.or_eq_true, Bool.and_eq_true, decide_eq_true_eq] at *
  rcases hab with h1 | ⟨h1, h1'⟩ <;> rcases hbc with h2 | ⟨h2, h2'⟩
  · exact Or.inl (h2.trans h1)
  · exact Or.inl (h2 ▸ h1)
  · exact Or.inl (h1 ▸ h2)
  · exact Or.inr ⟨h1.trans h2, h1'.trans h2'⟩

theorem fuseLe_total (a b : String × ℚ) : (fuseLe a b || fuseLe b a) = true := by
  simp only [fuseLe, Bool.or_eq_true, Bool.and_eq_true, decide_eq_true_eq]
  rcases lt_trichotomy a.2 b.2 with h | h | h
  · exact Or.inr (Or.inl h)
  · rcases le_total a.1 b.1 with h' | h'
    · exact Or.inl (Or.inr ⟨h, h'⟩)
    · exact Or.inr (Or.inr ⟨h.symm, h'⟩)
  · exact Or.inl (Or.inl h)

/-- C2: the Fusion Engine is deterministic in the chunk-id sequences of
its input rank lists: two inputs with identical id sequences (whatever raw
scores are attached) fuse to identical output order and scores. -/
theorem fuse_deterministic (k : ℚ) (l1 l2 : List (List ScoredResult))
    (h : idsOf l1 = idsOf l2) : fuse k l1 = fuse k l2 := by
  unfold fuse
  rw [h]

theorem fusedScore_rank_one_everywhere (k : ℚ) (A : List (List String)) (c : String)
    (hc : ∀ L ∈ A, c ∈ L ∧ L.indexOf c = 0) :
    fusedScore k A c = A.length • (1 / (k + 1)) := by
  unfold fusedScore
  rw [List.sum_eq_card_nsmul _ (1 / (k + 1)), List.length_map]
  intro x hx
  obtain ⟨L, hL, rfl⟩ := List.mem_map.mp hx
  obtain ⟨hmem, hidx⟩ := hc L hL
  simp [rrfContrib, rankIn, hmem, hidx]

theorem fusedScore_rank_one_once (k : ℚ) (l1 l2 : List (List String))
    (Ld : List String) (d : String) (hdm : d ∈ Ld) (hdi : Ld.indexOf d = 0)
    (h1 : ∀ L ∈ l1, d ∉ L) (h2 : ∀ L ∈ l2, d ∉ L) :
    fusedScore k (l1 ++ Ld :: l2) d = 1 / (k + 1) := by
  unfold fusedScore
  rw [List.map_append, List.map_cons, List.sum_append, List.sum_cons]
  have s1 : (l1.map fun L => rrfContrib k L d).sum = 0 := by
    apply List.sum_eq_zero
    intro x hx
    obtain ⟨L, hL, rfl⟩ := List.mem_map.mp hx
    simp [rrfContrib, h1 L hL]
  have s2 : (l2.map fun L => rrfContrib k L d).sum = 0 := by
    apply List.sum_eq_zero
    intro x hx
    obtain ⟨L, hL, rfl⟩ := List.mem_map.mp hx
    simp [rrfContrib, h2 L hL]
  rw [s1, s2]
  simp [rrfContrib, rankIn, hdm, hdi]

/-- C4: cross-list agreement is rewarded.  For fusion inputs with at least
two ranked lists (the two compared configurations having the same number
of lists), a chunk placed at rank 1 in every list receives a strictly
higher fused score than a chunk placed at rank 1 in exactly one list and
absent from all others. -/
theorem rrf_rank_one_agreement (k : ℚ) (hk : 0 < k)
    (A B : List (List String)) (c d : String)
    (hlen : 2 ≤ A.length) (hAB : A.length = B.length)
    (hc : ∀ L ∈ A, c ∈ L ∧ L.indexOf c = 0)
    (hd : ∃ l1 Ld l2, B = l1 ++ Ld :: l2 ∧ d ∈ Ld ∧ Ld.indexOf d = 0 ∧
      (∀ L ∈ l1, d ∉ L) ∧ (∀ L ∈ l2, d ∉ L)) :
    fusedScore k B d < fusedScore k A c := by
  obtain ⟨l1, Ld, l2, rfl, hdm, hdi, h1, h2⟩ := hd
  rw [fusedScore_rank_one_everywhere k A c hc,
    fusedScore_rank_one_once k l1 l2 Ld d hdm hdi h1 h2, nsmul_eq_mul]
  have hpos : (0 : ℚ) < 1 / (k + 1) := by positivity
  have hone : (1 : ℚ) < (A.length : ℚ) := by exact_mod_cast hlen.trans_lt' (by norm_num)
  calc 1 / (k + 1) = 1 * (1 / (k + 1)) := (one_mul _).symm
    _ < (A.length : ℚ) * (1 / (k + 1)) := by
        exact mul_lt_mul_of_pos_right hone hpos

/-- Witness for C4: with `k = 60`, the chunk `c` at rank 1 in both lists
of one input beats the chunk `d` at rank 1 in exactly one list of an
equally sized input. -/
theorem rrf_rank_one_agreement_witness :
    fusedScore 60 [["d"], ["y"]] "d" < fusedScore 60 [["c", "x"], ["c", "y"]] "c" :=
  rrf_rank_one_agreement 60 (by norm_num) [["c", "x"], ["c", "y"]] [["d"], ["y"]] "c" "d"
    (by decide) (by decide) (by decide)
    ⟨[], ["d"], [["y"]], rfl, by decide, by decide, by decide, by decide⟩

/-- Witness for C2: two concrete inputs with the same chunk-id order but
different raw scores fuse identically. -/
theorem fuse_deterministic_witness :
    idsOf [[ScoredResult.mk "a" 5, ScoredResult.mk "b" 2]] =
      idsOf [[ScoredResult.mk "a" 1, ScoredResult.mk "b" 7]] ∧
    fuse 60 [[ScoredResult.mk "a" 5, ScoredResult.mk "b" 2]] =
      fuse 60 [[ScoredResult.mk "a" 1, ScoredResult.mk "b" 7]] :=
  ⟨by decide, fuse_deterministic 60 _ _ (by decide)⟩

theorem mem_fuse_iff (k : ℚ) (lists : List (List ScoredResult)) (c : String) (s : ℚ) :
    (c, s) ∈ fuse k lists ↔
      (∃ L ∈ idsOf lists, c ∈ L) ∧ s = fusedScore k (idsOf lists) c := by
  unfold fuse
  simp only [List.mem_mergeSort, List.mem_map, List.mem_dedup, List.mem_flatten,
    Prod.mk.injEq]
  constructor
  · rintro ⟨a, ha, rfl, rfl⟩
    exact ⟨ha, rfl⟩
  · rintro ⟨hc, rfl⟩
    exact ⟨c, hc, rfl, rfl⟩

/-- C1: membership characterization of the Fusion Engine output.  For any
smoothing constant `k > 0`, a pair `(c, s)` appears in the fused output
exactly when `c` occurs in at least one input list and `s` is the sum,
over the lists containing `c`, of `1 / (k + rank_L(c))` with 1-based
ranks; lists not containing `c` contribute 0.  The default smoothing
constant is 60. -/
theorem rrf_fused_score_formula (k : ℚ) (hk : 0 < k) (lists : List (List ScoredResult))
    (c : String) (s : ℚ) :
    ((c, s) ∈ fuse k lists ↔
      ((∃ L ∈ lists, c ∈ L.map ScoredResult.chunkId) ∧
       s = (lists.map fun L =>
             if c ∈ L.map ScoredResult.chunkId
             then 1 / (k + ((L.map ScoredResult.chunkId).indexOf c : ℚ) + 1)
             else 0).sum)) ∧
    rrfDefaultK = 60 := by
  refine ⟨?_, rfl⟩
  rw [mem_fuse_iff]
  have hmem : (∃ L ∈ idsOf lists, c ∈ L) ↔
      ∃ L ∈ lists, c ∈ L.map ScoredResult.chunkId := by
    simp [idsOf]
  have hsum : fusedScore k (idsOf lists) c =
      (lists.map fun L =>
        if c ∈ L.map ScoredResult.chunkId
        then 1 / (k + ((L.map ScoredResult.chunkId).indexOf c : ℚ) + 1)
        else 0).sum := by
    unfold fusedScore idsOf
    rw [List.map_map]
    congr 1
    apply List.map_congr_left
    intro L hL
    simp only [Function.comp, rrfContrib, rankIn]
    by_cases h : c ∈ L.map ScoredResult.chunkId
    · rw [if_pos h, if_pos h]
      push_cast
      ring_nf
    · rw [if_neg h, if_neg h]
  rw [hmem, hsum]

/-- Witness for C1 at a concrete input: fusing the two lists `[a, b]` and
`[b]` with `k = 60` assigns `b` the score `1/62 + 1/61`. -/
theorem rrf_fused_score_formula_witness :
    (0 : ℚ) < 60 ∧
    (("b", (1 : ℚ) / 62 + 1 / 61) ∈
        fuse 60 [[ScoredResult.mk "a" 9, ScoredResult.mk "b" 5], [ScoredResult.mk "b" 1]] ↔
      ((∃ L ∈ [[ScoredResult.mk "a" 9, ScoredResult.mk "b" 5], [ScoredResult.mk "b" 1]],
          "b" ∈ L.map ScoredResult.chunkId) ∧
       (1 : ℚ) / 62 + 1 / 61 =
         ([[ScoredResult.mk "a" 9, ScoredResult.mk "b" 5], [ScoredResult.mk "b" 1]].map
           fun L =>
             if "b" ∈ L.map ScoredResult.chunkId
             then 1 / (60 + ((L.map ScoredResult.chunkId).indexOf "b" : ℚ) + 1)
             else 0).sum)) :=
  ⟨by norm_num,
   (rrf_fused_score_formula 60 (by norm_num)
      [[ScoredResult.mk "a" 9, ScoredResult.mk "b" 5], [ScoredResult.mk "b" 1]] "b"
      ((1 : ℚ) / 62 + 1 / 61)).1⟩

theorem fuse_nodup_keys (k : ℚ) (lists : List (List ScoredResult)) :
    ((fuse k lists).map Prod.fst).Nodup := by
  unfold fuse
  have hperm :
      (((((idsOf lists).flatten.dedup).map fun c =>
          (c, fusedScore k (idsOf lists) c)).mergeSort fuseLe).map Prod.fst).Perm
        ((((idsOf lists).flatten.dedup).map fun c =>
          (c, fusedScore k (idsOf lists) c)).map Prod.fst) :=
    (List.mergeSort_perm _ fuseLe).map Prod.fst
  rw [hperm.nodup_iff, List.map_map,
    show Prod.fst ∘ (fun c => (c, fusedScore k (idsOf lists) c)) = id from rfl,
    List.map_id]
  exact (idsOf lists).flatten.nodup_dedup

/-- C3: the Fusion Engine output is sorted by strictly descending fused
score, and two entries with equal fused score are ordered by strictly
ascending chunk identifier (lexicographic). -/
theorem fuse_sorted (k : ℚ) (lists : List (List ScoredResult)) :
    (fuse k lists).Pairwise fun a b => b.2 < a.2 ∨ (a.2 = b.2 ∧ a.1 < b.1) := by
  have hs : (fuse k lists).Pairwise fun a b => fuseLe a b = true :=
    List.sorted_mergeSort fuseLe_trans fuseLe_total _
  have hn : (fuse k lists).Pairwise fun a b => a.1 ≠ b.1 :=
    List.pairwise_map.mp (fuse_nodup_keys k lists)
  refine (hs.and hn).imp ?_
  rintro a b ⟨hle, hne⟩
  simp only [fuseLe, Bool.or_eq_true, Bool.and_eq_true, decide_eq_true_eq] at hle
  rcases hle with h | ⟨h, h'⟩
  · exact Or.inl h
  · exact Or.inr ⟨h, lt_of_le_of_ne h' hne⟩

/-- C5: fusing one ranked list alone with `k = 60` preserves the input
order: the fused output lists the chunk ids in exactly the input order.
The input is a ranked list, so its chunk ids are pairwise distinct. -/
theorem fuse_single_list_identity (L : List ScoredResult)
    (h : (L.map ScoredResult.chunkId).Nodup) :
    (fuse 60 [L]).map Prod.fst = L.map ScoredResult.chunkId := by
  have hflat : (idsOf [L]).flatten = L.map ScoredResult.chunkId := by
    simp [idsOf]
  have hkeys : (idsOf [L]).flatten.dedup = L.map ScoredResult.chunkId := by
    rw [hflat]
    exact h.dedup
  have hscore : ∀ i, ∀ hi : i < L.length,
      fusedScore 60 (idsOf [L]) (ScoredResult.chunkId L[i]) =
        1 / ((i : ℚ) + 61) := by
    intro i hi
    have hmem : ScoredResult.chunkId L[i] ∈ L.map ScoredResult.chunkId :=
      List.mem_map_of_mem _ (List.getElem_mem hi)
    have hidx : (L.map ScoredResult.chunkId).indexOf (ScoredResult.chunkId L[i]) = i := by
      have h2 := List.indexOf_getElem h i (by simpa using hi)
      simpa using h2
    simp only [fusedScore, idsOf, List.map_cons, List.map_nil, List.sum_cons,
      List.sum_nil, add_zero, rrfContrib, rankIn, hmem, if_pos, hidx]
    push_cast
    ring_nf
  have hsorted : ((L.map ScoredResult.chunkId).map fun c =>
      (c, fusedScore 60 (idsOf [L]) c)).Pairwise (fun a b => fuseLe a b = true) := by
    rw [List.pairwise_iff_getElem]
    intro i j hi hj hij
    simp only [List.length_map] at hi hj
    simp only [List.getElem_map]
    simp only [fuseLe, Bool.or_eq_true, Bool.and_eq_true, decide_eq_true_eq]
    left
    rw [hscore i hi, hscore j hj]
    apply one_div_lt_one_div_of_lt
    · positivity
    · have : (i : ℚ) < (j : ℚ) := by exact_mod_cast hij
      linarith
  unfold fuse
  rw [hkeys, List.mergeSort_of_sorted hsorted, List.map_map,
    show Prod.fst ∘ (fun c => (c, fusedScore 60 (idsOf [L]) c)) = id from rfl,
    List.map_id]

/-- Witness for C5: fusing the single ranked list `[b, a]` alone returns
the chunks in the order `[b, a]`. -/
theorem fuse_single_list_identity_witness :
    (fuse 60 [[ScoredResult.mk "b" 3, ScoredResult.mk "a" 1]]).map Prod.fst =
      ["b", "a"] :=
  fuse_single_list_identity [ScoredResult.mk "b" 3, ScoredResult.mk "a" 1] (by decide)

/-- A retrievable unit of text (the `Chunk` of the data model). -/
structure Chunk where
  id : String
  text : String
  deriving Repr, DecidableEq

/-- Character-list worker for `tokenize`: walks the text, lowercasing
alphanumeric characters into the current token and closing the token at
every non-alphanumeric boundary. -/
def tokenizeChars : List Char → List Char → List String
  | [], acc => if acc = [] then [] else [String.mk acc.reverse]
  | ch :: rest, acc =>
    if ch.isAlphanum then tokenizeChars rest (ch.toLower :: acc)
    else if acc = [] then tokenizeChars rest []
    else String.mk acc.reverse :: tokenizeChars rest []

/-- Modelled from the spec: Keyword Ranker tokenization — lowercase, split
on non-alphanumeric boundaries, dropping empty tokens. -/
def tokenize (s : String) : List String :=
  tokenizeChars s.data []

/-- Modelled from the spec: BM25 term-frequency saturation constant. -/
def bm25K1 : ℚ := 3 / 2

/-- Modelled from the spec: BM25 length-normalization constant. -/
def bm25B : ℚ := 3 / 4

/-- Modelled from the spec: number of corpus chunks whose text contains a
term. -/
def docFreq (corpus : List Chunk) (t : String) : ℕ :=
  (corpus.filter fun c => decide (t ∈ tokenize c.text)).length

/-- Modelled from the spec: a non-negative inverse-document-frequency
weight for BM25 (the logarithm of the textbook formula is omitted in the
model; the stated properties depend only on sign and overlap). -/
def idfWeight (n df : ℕ) : ℚ :=
  ((n : ℚ) - (df : ℚ) + 1 / 2) / ((df : ℚ) + 1 / 2)

/-- Modelled from the spec: average tokenized chunk length of the corpus. -/
def avgDocLen (corpus : List Chunk) : ℚ :=
  (corpus.map fun c => ((tokenize c.text).length : ℚ)).sum / (corpus.length : ℚ)

/-- Modelled from the spec: the BM25 relevance score of one chunk for a
tokenized query over the current corpus index. -/
def bm25Score (corpus : List Chunk) (qtoks : List String) (c : Chunk) : ℚ :=
  (qtoks.map fun t =>
    idfWeight corpus.length (docFreq corpus t) *
        (((tokenize c.text).count t : ℚ) * (bm25K1 + 1)) /
      (((tokenize c.text).count t : ℚ) +
        bm25K1 * (1 - bm25B + bm25B *
          (((tokenize c.text).length : ℚ) / avgDocLen corpus)))).sum

/-- Modelled from the spec: ranker output comparator — descending score. -/
def scoreLe (a b : ScoredResult) : Bool :=
  decide (b.score ≤ a.score)

/-- Modelled from the spec: the Keyword Ranker.  An empty query returns an
empty result list; otherwise every corpus chunk is scored with BM25, the
results are sorted by descending score and the first `topK` returned. -/
def keywordRank (corpus : List Chunk) (query : String) (topK : ℕ) :
    List ScoredResult :=
  if tokenize query = [] then []
  else
    ((corpus.map fun c => ScoredResult.mk c.id (bm25Score corpus (tokenize query) c)).mergeSort
      scoreLe).take topK

theorem scoreLe_trans (a b c : ScoredResult) (hab : scoreLe a b = true)
    (hbc : scoreLe b c = true) : scoreLe a c = true := by
  simp only [scoreLe, decide_eq_true_eq] at *
  exact hbc.trans hab

theorem scoreLe_total (a b : ScoredResult) : (scoreLe a b || scoreLe b a) = true := by
  simp only [scoreLe, Bool.or_eq_true, decide_eq_true_eq]
  exact le_total b.score a.score

theorem avgDocLen_nonneg (corpus : List Chunk) : 0 ≤ avgDocLen corpus := by
  unfold avgDocLen
  apply div_nonneg _ (by positivity)
  apply List.sum_nonneg
  intro x hx
  obtain ⟨c, _, rfl⟩ := List.mem_map.mp hx
  positivity

theorem idfWeight_nonneg (n df : ℕ) (h : df ≤ n) : 0 ≤ idfWeight n df := by
  unfold idfWeight
  apply div_nonneg _ (by positivity)
  have hc : (df : ℚ) ≤ (n : ℚ) := by exact_mod_cast h
  linarith

theorem bm25Score_nonneg (corpus : List Chunk) (qtoks : List String) (c : Chunk) :
    0 ≤ bm25Score corpus qtoks c := by
  apply List.sum_nonneg
  intro x hx
  obtain ⟨t, _, rfl⟩ := List.mem_map.mp hx
  have hidf : 0 ≤ idfWeight corpus.length (docFreq corpus t) :=
    idfWeight_nonneg _ _ (List.length_filter_le _ _)
  have hratio : 0 ≤ ((tokenize c.text).length : ℚ) / avgDocLen corpus :=
    div_nonneg (by positivity) (avgDocLen_nonneg corpus)
  have hnum : 0 ≤ idfWeight corpus.length (docFreq corpus t) *
      (((tokenize c.text).count t : ℚ) * (bm25K1 + 1)) := by
    apply mul_nonneg hidf
    apply mul_nonneg (by positivity)
    rw [bm25K1]
    norm_num
  have hden : 0 ≤ ((tokenize c.text).count t : ℚ) +
      bm25K1 * (1 - bm25B + bm25B *
        (((tokenize c.text).length : ℚ) / avgDocLen corpus)) := by
    rw [bm25K1, bm25B]
    have h0 : (0 : ℚ) ≤ ((tokenize c.text).count t : ℚ) := by positivity
    linarith
  exact div_nonneg hnum hden

/-- C6: Keyword Ranker invariants — every returned result carries the id
of a corpus chunk, all scores are non-negative, the scores are
non-increasing across the returned order, and an empty query or an empty
corpus yields an empty result list, not an error. -/
theorem keywordRank_invariants (corpus : List Chunk) (q : String) (n : ℕ) :
    (∀ r ∈ keywordRank corpus q n, ∃ c ∈ corpus, r.chunkId = c.id) ∧
    (∀ r ∈ keywordRank corpus q n, 0 ≤ r.score) ∧
    ((keywordRank corpus q n).Pairwise fun a b => b.score ≤ a.score) ∧
    keywordRank corpus "" n = [] ∧
    keywordRank [] q n = [] := by
  have hmem : ∀ r ∈ keywordRank corpus q n,
      ∃ c ∈ corpus, r = ScoredResult.mk c.id (bm25Score corpus (tokenize q) c) := by
    intro r hr
    unfold keywordRank at hr
    by_cases hq : tokenize q = []
    · rw [if_pos hq] at hr
      exact absurd hr (List.not_mem_nil r)
    · rw [if_neg hq] at hr
      have hr2 := List.mem_mergeSort.mp (List.take_subset _ _ hr)
      obtain ⟨c, hc, rfl⟩ := List.mem_map.mp hr2
      exact ⟨c, hc, rfl⟩
  refine ⟨?_, ?_, ?_, ?_, ?_⟩
  · intro r hr
    obtain ⟨c, hc, rfl⟩ := hmem r hr
    exact ⟨c, hc, rfl⟩
  · intro r hr
    obtain ⟨c, _, rfl⟩ := hmem r hr
    exact bm25Score_nonneg corpus (tokenize q) c
  · unfold keywordRank
    by_cases hq : tokenize q = []
    · rw [if_pos hq]
      exact List.Pairwise.nil
    · rw [if_neg hq]
      have hs := List.sorted_mergeSort scoreLe_trans scoreLe_total
        (corpus.map fun c => ScoredResult.mk c.id (bm25Score corpus (tokenize q) c))
      have ht := List.Pairwise.sublist (List.take_sublist n _) hs
      exact ht.imp fun {a b} hab => by
        simpa [scoreLe] using hab
  · simp [keywordRank, show tokenize "" = [] from rfl]
  · simp [keywordRank]

/-- Witness for C6 at a concrete corpus and query. -/
theorem keywordRank_invariants_witness :
    (∀ r ∈ keywordRank [Chunk.mk "a" "quantum encryption uses photons",
        Chunk.mk "b" "recipes for bread"] "quantum cryptography" 5,
      ∃ c ∈ [Chunk.mk "a" "quantum encryption uses photons",
        Chunk.mk "b" "recipes for bread"], r.chunkId = c.id) ∧
    (∀ r ∈ keywordRank [Chunk.mk "a" "quantum encryption uses photons",
        Chunk.mk "b" "recipes for bread"] "quantum cryptography" 5, 0 ≤ r.score) ∧
    ((keywordRank [Chunk.mk "a" "quantum encryption uses photons",
        Chunk.mk "b" "recipes for bread"] "quantum cryptography" 5).Pairwise
      fun a b => b.score ≤ a.score) ∧
    keywordRank [Chunk.mk "a" "quantum encryption uses photons",
        Chunk.mk "b" "recipes for bread"] "" 5 = [] ∧
    keywordRank [] "quantum cryptography" 5 = [] :=
  keywordRank_invariants
    [Chunk.mk "a" "quantum encryption uses photons", Chunk.mk "b" "recipes for bread"]
    "quantum cryptography" 5

/-- The four retrieval strategies of the Strategy Selector. -/
inductive Strategy
  | semantic
  | bm25
  | hybrid
  | hyde
  deriving Repr, DecidableEq

/-- The error taxonomy of the retrieval core. -/
inductive RagError
  | RetrievalUnavailable
  | InvalidConfiguration
  | UnknownStrategy (name : String)
  | Cancelled
  deriving Repr, DecidableEq

/-- An external call issued during retrieval, recorded in order. -/
inductive ExtCall
  | vectorSearch (text : String) (topK : ℕ)
  | generative (prompt : String)
  deriving Repr, DecidableEq

/-- The external collaborators of the core: the vector-search service, the
generative-text service and the corpus store. -/
structure Env where
  vecSearch : String → ℕ → Except Unit (List ScoredResult)
  gen : String → Except Unit String
  corpus : List Chunk

/-- A `RetrievalOutcome`: ordered fused results plus metadata (strategy
used, enhanced-query text if any, and the degraded flag). -/
structure Outcome where
  results : List (String × ℚ)
  strategy : Strategy
  enhancedQuery : Option String
  degraded : Bool
  deriving Repr, DecidableEq

/-- Chunk-id/score pairs of a ranker result list. -/
def toPairs (rs : List ScoredResult) : List (String × ℚ) :=
  rs.map fun r => (r.chunkId, r.score)

/-- Modelled from the spec: name-based dispatch of the Retrieval Strategy
Selector over the four known strategy names. -/
def parseStrategy (s : String) : Option Strategy :=
  if s = "semantic" then some Strategy.semantic
  else if s = "bm25" then some Strategy.bm25
  else if s = "hybrid" then some Strategy.hybrid
  else if s = "hyde" then some Strategy.hyde
  else none

/-- Modelled from the spec: the prompt the Query Enhancer hands to the
generative collaborator for HyDE. -/
def hydePrompt (q : String) : String :=
  "Write a short hypothetical answer to: " ++ q

/-- Modelled from the spec: the Query Enhancer's HyDE step.  On generative
failure it fails soft, returning the original query unmodified together
with a degraded flag instead of propagating the error. -/
def enhanceHyde (gen : String → Except Unit String) (q : String) : String × Bool :=
  match gen (hydePrompt q) with
  | .ok hypo => (hypo, false)
  | .error _ => (q, true)

/-- Modelled from the spec: the caller-facing `retrieve` operation.  The
strategy name is dispatched first; an unrecognized name fails with
`UnknownStrategy` naming the value.  `top_k ≤ 0` or fusion constant
`k ≤ 0` fail with `InvalidConfiguration`.  Both rejections happen before
any external call, so the recorded call trace is empty.  Valid requests
run the selected path: `semantic` and `hyde` call the vector search
(`hyde` after the generative enhancement), `bm25` is purely in-memory and
`hybrid` fuses the keyword and vector rankings with RRF. -/
def retrieve (env : Env) (query : String) (strategyName : String) (topK : ℤ)
    (k : ℚ) : Except RagError Outcome × List ExtCall :=
  match parseStrategy strategyName with
  | none => (.error (.UnknownStrategy strategyName), [])
  | some strat =>
    if topK ≤ 0 ∨ k ≤ 0 then (.error .InvalidConfiguration, [])
    else
      match strat with
      | .semantic =>
        match env.vecSearch query topK.toNat with
        | .ok rs =>
          (.ok (Outcome.mk (toPairs rs) .semantic none false),
            [.vectorSearch query topK.toNat])
        | .error _ =>
          (.error .RetrievalUnavailable, [.vectorSearch query topK.toNat])
      | .bm25 =>
        (.ok (Outcome.mk (toPairs (keywordRank env.corpus query topK.toNat))
          .bm25 none false), [])
      | .hybrid =>
        match env.vecSearch query topK.toNat with
        | .ok rs =>
          (.ok (Outcome.mk ((fuse k [keywordRank env.corpus query topK.toNat, rs]).take
              topK.toNat) .hybrid none false),
            [.vectorSearch query topK.toNat])
        | .error _ =>
          (.error .RetrievalUnavailable, [.vectorSearch query topK.toNat])
      | .hyde =>
        let er := enhanceHyde env.gen query
        match env.vecSearch er.1 topK.toNat with
        | .ok rs =>
          (.ok (Outcome.mk (toPairs rs) .hyde
              (if er.2 then none else some er.1) er.2),
            [.generative (hydePrompt query), .vectorSearch er.1 topK.toNat])
        | .error _ =>
          (.error .RetrievalUnavailable,
            [.generative (hydePrompt query), .vectorSearch er.1 topK.toNat])

/-- C7: a retrieval request naming a known strategy but carrying an
invalid configuration — `top_k ≤ 0` or fusion constant `k ≤ 0` — fails
with `InvalidConfiguration`, and the recorded external-call trace is
empty: the rejection precedes any vector-search or generative call. -/
theorem retrieve_invalid_config (env : Env) (q s : String) (topK : ℤ) (k : ℚ)
    (strat : Strategy) (hs : parseStrategy s = some strat)
    (hbad : topK ≤ 0 ∨ k ≤ 0) :
    retrieve env q s topK k = (.error .InvalidConfiguration, []) := by
  unfold retrieve
  rw [hs]
  simp [if_pos hbad]

/-- C8: a strategy name outside the four known ones makes `retrieve` fail
with `UnknownStrategy` carrying that very name, with an empty
external-call trace. -/
theorem retrieve_unknown_strategy (env : Env) (q s : String) (topK : ℤ) (k : ℚ)
    (h1 : s ≠ "semantic") (h2 : s ≠ "bm25") (h3 : s ≠ "hybrid") (h4 : s ≠ "hyde") :
    retrieve env q s topK k = (.error (.UnknownStrategy s), []) := by
  have hp : parseStrategy s = none := by
    simp [parseStrategy, h1, h2, h3, h4]
  unfold retrieve
  rw [hp]

/-- C9: when the generative collaborator fails, the Query Enhancer returns
the original query unmodified with only a degraded flag, and the `hyde`
retrieval still succeeds, returning exactly the results of unenhanced
semantic retrieval with the `EnhancementDegraded` flag set on the outcome
metadata rather than any error. -/
theorem hyde_fail_soft (env : Env) (q : String) (topK : ℤ) (k : ℚ)
    (rs : List ScoredResult)
    (hgen : env.gen (hydePrompt q) = .error ())
    (hvec : env.vecSearch q topK.toNat = .ok rs)
    (htop : 0 < topK) (hk : 0 < k) :
    enhanceHyde env.gen q = (q, true) ∧
    retrieve env q "hyde" topK k =
      (.ok (Outcome.mk (toPairs rs) .hyde none true),
        [.generative (hydePrompt q), .vectorSearch q topK.toNat]) ∧
    retrieve env q "semantic" topK k =
      (.ok (Outcome.mk (toPairs rs) .semantic none false),
        [.vectorSearch q topK.toNat]) := by
  have hcond : ¬(topK ≤ 0 ∨ k ≤ 0) := by
    rintro (h | h)
    · exact absurd htop (not_lt.mpr h)
    · exact absurd hk (not_lt.mpr h)
  have he : enhanceHyde env.gen q = (q, true) := by
    unfold enhanceHyde
    rw [hgen]
  refine ⟨he, ?_, ?_⟩
  · have hp : parseStrategy "hyde" = some Strategy.hyde := rfl
    simp only [retrieve, hp, he, hvec, if_neg hcond, if_true]
  · have hp : parseStrategy "semantic" = some Strategy.semantic := rfl
    simp only [retrieve, hp, hvec, if_neg hcond]

/-- A concrete external environment used by the closed witnesses: the
vector search always answers with one result and the generative
collaborator always fails. -/
def testEnv : Env where
  vecSearch := fun _ _ => .ok [ScoredResult.mk "v" 1]
  gen := fun _ => .error ()
  corpus := []

/-- Witness for C7: `top_k = 0` with the valid strategy name `semantic`
is rejected as `InvalidConfiguration` with no external call. -/
theorem retrieve_invalid_config_witness :
    retrieve testEnv "q" "semantic" 0 60 = (.error .InvalidConfiguration, []) :=
  retrieve_invalid_config testEnv "q" "semantic" 0 60 Strategy.semantic rfl
    (Or.inl (by norm_num))

/-- Witness for C8: the unknown strategy name `foo` yields
`UnknownStrategy "foo"` with no external call. -/
theorem retrieve_unknown_strategy_witness :
    retrieve testEnv "q" "foo" 5 60 = (.error (.UnknownStrategy "foo"), []) :=
  retrieve_unknown_strategy testEnv "q" "foo" 5 60 (by decide) (by decide)
    (by decide) (by decide)

/-- Witness for C9 in the concrete environment with a failing generative
collaborator. -/
theorem hyde_fail_soft_witness :
    enhanceHyde testEnv.gen "q" = ("q", true) ∧
    retrieve testEnv "q" "hyde" 3 60 =
      (.ok (Outcome.mk (toPairs [ScoredResult.mk "v" 1]) .hyde none true),
        [.generative (hydePrompt "q"), .vectorSearch "q" (3 : ℤ).toNat]) ∧
    retrieve testEnv "q" "semantic" 3 60 =
      (.ok (Outcome.mk (toPairs [ScoredResult.mk "v" 1]) .semantic none false),
        [.vectorSearch "q" (3 : ℤ).toNat]) :=
  hyde_fail_soft testEnv "q" 3 60 [ScoredResult.mk "v" 1] rfl rfl (by norm_num)
    (by norm_num)

/-- A document entry of the ingestion page's `documents` state. -/
structure DocumentInfo where
  id : String
  filename : String
  createdAt : String
  chunks : ℕ
  deriving Repr, DecidableEq

/-- The pieces of the ingestion page's component state touched by the
delete handler: the document list and the error/success messages. -/
structure IngestState where
  documents : List DocumentInfo
  errorMsg : Option String
  successMsg : Option String
  deriving Repr, DecidableEq

/-- The ingestion page's `handleDelete`: the delete service call either
succeeds — then the document list is filtered to the entries whose id
differs from the deleted one and a success message is set — or fails —
then only the error message is set and the document list is untouched. -/
def handleDelete (docId : String) (svc : Except String Unit)
    (st : IngestState) : IngestState :=
  match svc with
  | .ok _ =>
    { st with
      documents := st.documents.filter fun doc => doc.id != docId
      successMsg := some "Document deleted successfully" }
  | .error msg =>
    { st with errorMsg := some ("Failed to delete document: " ++ msg) }

/-- C10: frame conditions of the delete handler.  On service success the
resulting list is the starting list with exactly the documents of the
deleted id removed — it is a sublist of the original (so all the other
documents keep their relative order), no remaining document carries the
deleted id, and every document with a different id survives.  On service
failure the document list is left entirely unchanged and the failure is
recorded in the error message only. -/
theorem handleDelete_frame (d : String) (st : IngestState) :
    ((handleDelete d (.ok ()) st).documents =
        st.documents.filter (fun doc => doc.id != d) ∧
      ((handleDelete d (.ok ()) st).documents.Sublist st.documents ∧
        (∀ doc ∈ (handleDelete d (.ok ()) st).documents, doc.id ≠ d) ∧
        ∀ doc ∈ st.documents, doc.id ≠ d →
          doc ∈ (handleDelete d (.ok ()) st).documents)) ∧
    ∀ e, (handleDelete d (.error e) st).documents = st.documents ∧
      (handleDelete d (.error e) st).errorMsg =
        some ("Failed to delete document: " ++ e) := by
  refine ⟨⟨rfl, List.filter_sublist _, ?_, ?_⟩, fun e => ⟨rfl, rfl⟩⟩
  · intro doc hdoc
    have hmem := List.of_mem_filter hdoc
    simpa using hmem
  · intro doc hdoc hne
    apply List.mem_filter_of_mem hdoc
    simpa using hne

/-- Witness for C10 on a concrete document list: deleting id `a` removes
both entries with that id and keeps the others in order; a failing call
leaves the list unchanged. -/
theorem handleDelete_frame_witness :
    (handleDelete "a" (.ok ())
        (IngestState.mk
          [DocumentInfo.mk "a" "f1" "d1" 2, DocumentInfo.mk "b" "f2" "d2" 3,
            DocumentInfo.mk "a" "f3" "d3" 1] none none)).documents =
      [DocumentInfo.mk "b" "f2" "d2" 3] ∧
    (handleDelete "a" (.error "boom")
        (IngestState.mk
          [DocumentInfo.mk "a" "f1" "d1" 2, DocumentInfo.mk "b" "f2" "d2" 3,
            DocumentInfo.mk "a" "f3" "d3" 1] none none)).documents =
      [DocumentInfo.mk "a" "f1" "d1" 2, DocumentInfo.mk "b" "f2" "d2" 3,
        DocumentInfo.mk "a" "f3" "d3" 1] := by
  constructor
  · rw [(handleDelete_frame "a"
      (IngestState.mk
        [DocumentInfo.mk "a" "f1" "d1" 2, DocumentInfo.mk "b" "f2" "d2" 3,
          DocumentInfo.mk "a" "f3" "d3" 1] none none)).1.1]
    decide
  · exact ((handleDelete_frame "a"
      (IngestState.mk
        [DocumentInfo.mk "a" "f1" "d1" 2, DocumentInfo.mk "b" "f2" "d2" 3,
          DocumentInfo.mk "a" "f3" "d3" 1] none none)).2 "boom").1

end Rag
